import Mathlib

/-!
Verification of the claude-explorer core (parsing, reconciliation, caching,
search) against its specification.  The Lean definitions below are a shallow
embedding of `src/claude_explorer/data/parsers.py`, `models.py` and
`cache.py`:

* JSON documents are modelled by the inductive type `Json`; a transcript or
  history file is a `List (Option Json)` where `none` stands for a blank or
  syntactically malformed line (which `json.loads` would reject and the code
  skips).  Python dicts are association lists; the sources never rely on
  duplicate keys.
* Python `datetime` values are modelled by `PyDatetime`: an epoch-millisecond
  instant plus an optional UTC-offset (in minutes); `none` models a naive
  datetime, `some 0` an aware UTC datetime.
* Machine integers are `Int`/`Nat`; Python ints are unbounded so no modular
  arithmetic is needed.
* Fallible operations (`int(...)` conversions, unhandled `TypeError`s) are
  modelled with `Except String`.
-/

/-! ## Generic helpers: dictionaries, Python string primitives -/

/-- First-match lookup in an association list, modelling Python `dict` access
(the decoders never build dicts with duplicate keys). -/
def lookupKey {β : Type} : List (String × β) → String → Option β
  | [], _ => none
  | (k, v) :: rest, key => if k = key then some v else lookupKey rest key

/-- Dict assignment `d[key] = v`: replace an existing binding or append. -/
def updateKey {β : Type} : List (String × β) → String → β → List (String × β)
  | [], key, v => [(key, v)]
  | (k, w) :: rest, key, v =>
    if k = key then (k, v) :: rest else (k, w) :: updateKey rest key v

/-- Dict `pop(key, None)`: drop the binding for `key` if present. -/
def removeKey {β : Type} : List (String × β) → String → List (String × β)
  | [], _ => []
  | (k, w) :: rest, key =>
    if k = key then removeKey rest key else (k, w) :: removeKey rest key

/-- Scanner behind `pyReplace`: at skip count `0` test for a pattern match
(emitting the replacement and skipping the rest of the matched pattern),
otherwise consume the current character of an earlier match. -/
def pyReplaceAux : List Char → List Char → List Char → Nat → List Char
  | [], _, _, _ => []
  | _ :: rest, old, new, k + 1 => pyReplaceAux rest old new k
  | c :: rest, old, new, 0 =>
    if old ≠ [] ∧ old.isPrefixOf (c :: rest) then
      new ++ pyReplaceAux rest old new (old.length - 1)
    else
      c :: pyReplaceAux rest old new 0

/-- Python `str.replace(old, new)` on character lists: replace every
non-overlapping occurrence left to right.  (The sources only call it with the
nonempty patterns `"/"` and `"Z"`; the empty-pattern corner of Python's
`replace` is not modelled.) -/
def pyReplace (s old new : List Char) : List Char :=
  pyReplaceAux s old new 0

/-- Python `s[:n]` on strings (character-based, as Python slicing is). -/
def pyTake (s : String) (n : Nat) : String := String.mk (s.data.take n)

/-- Python `s[n:]` on strings. -/
def pyDrop (s : String) (n : Nat) : String := String.mk (s.data.drop n)

/-- Python `s.startswith(pre)`. -/
def pyStartsWith (s pre : String) : Bool := pre.data.isPrefixOf s.data

/-- A stable insertion step for `sortBy`: `x` (earlier in the original
list) goes in front of the first `y` it compares `le` to, so equal keys
preserve original order like Python's `sorted`. -/
def insertBy {α : Type} (le : α → α → Bool) (x : α) : List α → List α
  | [] => [x]
  | y :: rest => if le x y then x :: y :: rest else y :: insertBy le x rest

/-- A stable sort modelling Python `sorted` with a boolean `≤` comparator
(the claims depend only on the output being a permutation of the input). -/
def sortBy {α : Type} (le : α → α → Bool) : List α → List α
  | [] => []
  | x :: rest => insertBy le x (sortBy le rest)

/-- The characters stripped by Python `str.strip()` with no argument
(ASCII whitespace; the data never contains the exotic Unicode spaces). -/
def pyIsSpace (c : Char) : Bool :=
  c = ' ' ∨ c = '\t' ∨ c = '\n' ∨ c = '\r' ∨ c = Char.ofNat 11 ∨ c = Char.ofNat 12

/-- Python `str.strip()` on character lists. -/
def pyStrip (l : List Char) : List Char :=
  ((l.dropWhile pyIsSpace).reverse.dropWhile pyIsSpace).reverse

/-- Python `str.strip()` on strings. -/
def pyStripS (s : String) : String := String.mk (pyStrip s.data)

/-- Python `str.lower()` (charwise; the data is ASCII, where Python's `lower`
agrees with `Char.toLower`). -/
def pyLower (s : List Char) : List Char := s.map Char.toLower

/-- Python `str.find(sub)`: index of the first occurrence of `q` in `t`,
`none` when absent (Python returns `-1`). -/
def findSub (q : List Char) : List Char → Option Nat
  | [] => if q.isPrefixOf [] then some 0 else none
  | c :: rest =>
    if q.isPrefixOf (c :: rest) then some 0
    else (findSub q rest).map (· + 1)

/-! ## JSON documents -/

/-- A parsed JSON value (`json.loads` output).  Numbers are modelled as
integers: every numeric field the code consumes (epoch milliseconds, counts,
sizes) is integral. -/
inductive Json where
  | null
  | bool (b : Bool)
  | num (n : Int)
  | str (s : String)
  | arr (xs : List Json)
  | obj (kvs : List (String × Json))

/-- Python dict `.get(key)` on a JSON object (`none` for absent keys or for
non-object receivers, which the code guards with `isinstance` checks). -/
def Json.get : Json → String → Option Json
  | .obj kvs, key => lookupKey kvs key
  | _, _ => none

/-- Python `d.get(key, default)`. -/
def Json.getD (j : Json) (key : String) (d : Json) : Json :=
  (j.get key).getD d

/-- Python `d.get(key, default)` where the caller expects a string: a
non-string value is mapped to the default.  Everywhere this is used the code
either compares the result against nonempty string constants (so a non-string
value falls through exactly like the default) or interpolates an
always-string field. -/
def Json.getStrD (j : Json) (key : String) (d : String) : String :=
  match j.get key with
  | some (.str s) => s
  | _ => d

/-- Python truthiness of a JSON value (`if x:`). -/
def Json.truthy : Json → Bool
  | .null => false
  | .bool b => b
  | .num n => n ≠ 0
  | .str s => s ≠ ""
  | .arr xs => !xs.isEmpty
  | .obj kvs => !kvs.isEmpty

/-! ## Datetimes -/

/-- A Python `datetime`: an instant in epoch milliseconds together with its
`tzinfo` as a UTC offset in minutes (`none` = naive datetime).  For aware
values `millis` is the UTC instant; for naive values it is the wall-clock
reading.  Aware datetimes compare by instant, which the model realises by
comparing `millis`. -/
structure PyDatetime where
  millis : Int
  tzOffsetMinutes : Option Int
deriving DecidableEq, Repr

/-- `datetime.fromtimestamp(ms / 1000, tz=timezone.utc)`. -/
def fromtimestampUtc (ms : Int) : PyDatetime := ⟨ms, some 0⟩

/-- `datetime.min.replace(tzinfo=timezone.utc)`: 0001-01-01T00:00:00+00:00. -/
def pyDatetimeMin : PyDatetime := ⟨-62135596800000, some 0⟩

/-- Days from 1970-01-01 to the civil date y-m-d (standard civil-calendar
conversion, as performed inside CPython's `datetime`). -/
def daysFromCivil (y mo d : Int) : Int :=
  let yy := if mo ≤ 2 then y - 1 else y
  let era := (if 0 ≤ yy then yy else yy - 399) / 400
  let yoe := yy - era * 400
  let mp := if 2 < mo then mo - 3 else mo + 9
  let doy := (153 * mp + 2) / 5 + d - 1
  let doe := yoe * 365 + yoe / 4 - yoe / 100 + doy
  era * 146097 + doe - 719468

/-- Read exactly `n` decimal digits from the front of `l`. -/
def parseDigits : Nat → List Char → Option (Nat × List Char)
  | 0, l => some (0, l)
  | n + 1, [] => none
  | n + 1, c :: rest =>
    if c.isDigit then
      match parseDigits n rest with
      | some (v, r) => some ((c.toNat - 48) * 10 ^ n + v, r)
      | none => none
    else none

/-- Consume one expected character. -/
def expectChar (c : Char) : List Char → Option (List Char)
  | [] => none
  | d :: rest => if d = c then some rest else none

/-- Fractional-second digits (1 to 6 of them, as CPython accepts) converted
to milliseconds. -/
def fracMillis (ds : List Char) : Option Int :=
  if ds ≠ [] ∧ ds.length ≤ 6 ∧ ds.all Char.isDigit then
    let micros : Nat := (ds.foldl (fun a c => a * 10 + (c.toNat - 48)) 0) * 10 ^ (6 - ds.length)
    some ((micros : Int) / 1000)
  else none

/-- Parse the offset-free part `YYYY-MM-DD[T ]HH:MM:SS[.ffffff]` of an ISO
datetime string into wall-clock epoch milliseconds.  This models the common
`datetime.fromisoformat` subset the transcript data uses; the short forms
(date only, minutes precision) that CPython also accepts never occur and are
not modelled. -/
def parseNaiveIso (l : List Char) : Option Int := do
  let (y, r) ← parseDigits 4 l
  let r ← expectChar '-' r
  let (mo, r) ← parseDigits 2 r
  let r ← expectChar '-' r
  let (d, r) ← parseDigits 2 r
  let r ← match r with
          | c :: rest => if c = 'T' ∨ c = ' ' then some rest else none
          | [] => none
  let (h, r) ← parseDigits 2 r
  let r ← expectChar ':' r
  let (mi, r) ← parseDigits 2 r
  let r ← expectChar ':' r
  let (se, r) ← parseDigits 2 r
  let fms ← match r with
            | [] => some (0 : Int)
            | '.' :: ds => fracMillis ds
            | _ => none
  if 1 ≤ mo ∧ mo ≤ 12 ∧ 1 ≤ d ∧ d ≤ 31 ∧ h ≤ 23 ∧ mi ≤ 59 ∧ se ≤ 59 then
    some (daysFromCivil y mo d * 86400000
      + (h : Int) * 3600000 + (mi : Int) * 60000 + (se : Int) * 1000 + fms)
  else none

/-- Split a trailing `±HH:MM` UTC offset (exactly the last six characters)
off an ISO datetime string, returning the base string and the offset in
minutes; no trailing offset leaves the string whole with offset `none`. -/
def splitTz (l : List Char) : List Char × Option Int :=
  if l.length < 6 then (l, none)
  else
    match l.drop (l.length - 6) with
    | [sgn, h1, h2, colon, m1, m2] =>
      if (sgn = '+' ∨ sgn = '-') ∧ colon = ':'
          ∧ h1.isDigit ∧ h2.isDigit ∧ m1.isDigit ∧ m2.isDigit then
        let hh := (h1.toNat - 48) * 10 + (h2.toNat - 48)
        let mm := (m1.toNat - 48) * 10 + (m2.toNat - 48)
        let off : Int := hh * 60 + mm
        (l.take (l.length - 6), some (if sgn = '-' then -off else off))
      else (l, none)
    | _ => (l, none)

/-- `datetime.fromisoformat`: naive part plus optional trailing UTC offset.
An aware result stores the UTC instant (wall-clock minus offset). -/
def fromisoformat (s : String) : Option PyDatetime :=
  match parseNaiveIso (splitTz s.data).1 with
  | some ms =>
    match (splitTz s.data).2 with
    | some off => some ⟨ms - off * 60000, some off⟩
    | none => some ⟨ms, none⟩
  | none => none

/-- The transcript reader's timestamp decoding
(`parse_session_transcript`, parsers.py:308-314): take the `timestamp`
field, and when it is a truthy string, parse it after rewriting `"Z"` to
`"+00:00"`; any failure (or a non-string value, whose `.replace` raises a
caught `AttributeError`) leaves the timestamp absent. -/
def transcriptTs (tsField : Option Json) : Option PyDatetime :=
  match tsField with
  | some (.str s) =>
    if s = "" then none
    else fromisoformat (String.mk (pyReplace s.data "Z".data "+00:00".data))
  | _ => none

/-! ## Domain entities (models.py) -/

/-- A single user prompt from `history.jsonl` (models.py `Prompt`). -/
structure Prompt where
  text : String
  timestamp : PyDatetime
  project : String
  session_id : String
deriving DecidableEq, Repr

/-- A message within a session transcript (models.py `SessionMessage`). -/
structure SessionMessage where
  role : String
  content : String
  timestamp : Option PyDatetime := none
  tool_name : Option String := none
  message_type : Option String := none
deriving DecidableEq, Repr

/-- A Claude session with metadata (models.py `Session`).  `jsonl_path` keeps
only presence/the path string; file contents are supplied separately where
needed. -/
structure Session where
  session_id : String
  project : String
  project_path : String
  first_activity : Option PyDatetime := none
  last_activity : Option PyDatetime := none
  prompt_count : Nat := 0
  message_count : Nat := 0
  jsonl_path : Option String := none
  jsonl_size : Nat := 0
deriving DecidableEq, Repr

/-- Daily activity stats (models.py `DailyStats`). -/
structure DailyStats where
  date : String
  message_count : Int := 0
  session_count : Int := 0
  tool_call_count : Int := 0
deriving DecidableEq, Repr

/-- Token usage for one model (models.py `ModelUsage`). -/
structure ModelUsage where
  model_id : String
  input_tokens : Int := 0
  output_tokens : Int := 0
  cache_read_tokens : Int := 0
  cache_creation_tokens : Int := 0
deriving DecidableEq, Repr

/-- A project with its sessions (models.py `Project`). -/
structure Project where
  name : String
  path : String
  display_name : String
  sessions : List Session := []
  total_size : Nat := 0
  session_count : Nat := 0
deriving DecidableEq, Repr

/-- Aggregate stats for the dashboard (models.py `GlobalStats`). -/
structure GlobalStats where
  total_messages : Int := 0
  total_sessions : Int := 0
  total_tools : Int := 0
  total_prompts : Nat := 0
  total_projects : Nat := 0
  total_data_bytes : Nat := 0
  first_date : String := "?"
  last_date : String := "?"
  active_days : Nat := 0
  daily_stats : List DailyStats := []
  model_usages : List ModelUsage := []
  hour_counts : List (Int × Int) := []
  longest_session_id : String := ""
  longest_session_duration_ms : Int := 0
  longest_session_msgs : Int := 0
deriving DecidableEq, Repr

/-- `shorten_project_dir` (models.py:39-65), parameterised by the home
directory that `Path.home()` returns at import time.  `_HOME_ENCODED` is the
home path with every `/` replaced by `-`. -/
def shortenProjectDir (home : String) (name : String) : String :=
  let homeEncoded : String := String.mk (pyReplace home.data "/".data "-".data)
  let prefixProjects := homeEncoded ++ "-Projects-"
  let prefixHome := homeEncoded ++ "-"
  if pyStartsWith name prefixProjects then
    let result := pyDrop name prefixProjects.data.length
    if result = "" then "Projects" else result
  else if name = homeEncoded ++ "-Projects" then "Projects"
  else if pyStartsWith name prefixHome then
    let suffix := pyDrop name prefixHome.data.length
    if pyStartsWith suffix "-" then "~/" ++ "." ++ pyDrop suffix 1
    else if suffix = "" then "~" else "~/" ++ suffix
  else if name = homeEncoded then "~"
  else name

/-! ## History parsing (parsers.py `_parse_history`) -/

/-- `int(h)` on a JSON-object key, i.e. Python `int` applied to a string:
optional surrounding whitespace and sign, then at least one digit; anything
else raises `ValueError`. -/
def pyIntOfString (s : String) : Except String Int :=
  let l := (pyStrip s.data)
  let (neg, ds) := match l with
                   | '-' :: rest => (true, rest)
                   | '+' :: rest => (false, rest)
                   | rest => (false, rest)
  if ds ≠ [] ∧ ds.all Char.isDigit then
    let v : Nat := ds.foldl (fun a c => a * 10 + (c.toNat - 48)) 0
    .ok (if neg then -(v : Int) else (v : Int))
  else .error "ValueError"

/-- Python `int(x)` on a decoded JSON value: numbers pass through, bools are
0/1, numeric strings parse, and `null`/lists/objects raise `TypeError`. -/
def pyInt : Json → Except String Int
  | .num n => .ok n
  | .bool b => .ok (if b then 1 else 0)
  | .str s => pyIntOfString s
  | _ => .error "TypeError"

/-- The timestamp decoding of a `history.jsonl` line
(`_parse_history`, parsers.py:191-194).  A zero or missing `timestamp` maps
to the aware minimum sentinel; a truthy non-numeric `timestamp` raises an
uncaught `TypeError` (`ts / 1000` on a non-number), which aborts the whole
parse — the surrounding `except` clause catches only `JSONDecodeError` and
`ValueError`; a `true` boolean divides to 0.001 seconds, one millisecond. -/
def historyStamp (ts : Json) : Except String PyDatetime :=
  if ts.truthy then
    match ts with
    | .num n => .ok (fromtimestampUtc n)
    | .bool _ => .ok (fromtimestampUtc 1)
    | _ => .error "TypeError"
  else
    .ok pyDatetimeMin

/-- One `history.jsonl` line turned into a `Prompt` (continued): assemble
the record from the decoded timestamp and defaulted string fields. -/
def parseHistoryLine (data : Json) : Except String Prompt :=
  match historyStamp (data.getD "timestamp" (.num 0)) with
  | .error e => .error e
  | .ok stamp =>
    .ok
      { text := data.getStrD "display" ""
        timestamp := stamp
        project := data.getStrD "project" "unknown"
        session_id := data.getStrD "sessionId" "" }

/-- The accumulation loop of `_parse_history`: blank/malformed lines are
skipped, each decodable line appends one `Prompt`. -/
def parseHistoryCore : List (Option Json) → Except String (List Prompt)
  | [] => .ok []
  | none :: rest => parseHistoryCore rest
  | some data :: rest => do
    let p ← parseHistoryLine data
    let ps ← parseHistoryCore rest
    .ok (p :: ps)

/-- Sort key used throughout parsers.py: `s.last_activity or datetime.min`,
descending. -/
def promptSortLe (a b : Prompt) : Bool :=
  b.timestamp.millis ≤ a.timestamp.millis

/-- `_parse_history` (parsers.py:178-200): a missing file is an empty
prompt list; otherwise decode each line and sort newest-first. -/
def parseHistory (file : Option (List (Option Json))) : Except String (List Prompt) :=
  match file with
  | none => .ok []
  | some lines =>
    match parseHistoryCore lines with
    | .error e => .error e
    | .ok ps => .ok (sortBy promptSortLe ps)

/-! ## Session reconciliation (parsers.py `_discover_all_sessions`) -/

/-- One step of building the `session_prompts` dict:
`session_prompts.setdefault(p.session_id, []).append(p)`. -/
def insertPrompt (m : List (String × List Prompt)) (p : Prompt) :
    List (String × List Prompt) :=
  match lookupKey m p.session_id with
  | some ps => updateKey m p.session_id (ps ++ [p])
  | none => m ++ [(p.session_id, [p])]

/-- The `session_prompts` dict of `_discover_all_sessions`
(parsers.py:268-270). -/
def buildSessionPrompts (history : List Prompt) : List (String × List Prompt) :=
  history.foldl insertPrompt []

/-- `session_prompts.get(session.session_id, [])`. -/
def getPrompts (history : List Prompt) (sid : String) : List Prompt :=
  (lookupKey (buildSessionPrompts history) sid).getD []

/-- Python `min(p.timestamp for p in prompts)` on a nonempty prompt list
(first-minimal element wins ties, like Python `min`). -/
def pyMinTs : List Prompt → PyDatetime
  | [] => pyDatetimeMin
  | p :: rest =>
    rest.foldl (fun acc q => if q.timestamp.millis < acc.millis then q.timestamp else acc)
      p.timestamp

/-- Python `max(p.timestamp for p in prompts)` on a nonempty prompt list
(first-maximal element wins ties, like Python `max`). -/
def pyMaxTs : List Prompt → PyDatetime
  | [] => pyDatetimeMin
  | p :: rest =>
    rest.foldl (fun acc q => if acc.millis < q.timestamp.millis then q.timestamp else acc)
      p.timestamp

/-- The per-stub update of `_discover_all_sessions` (parsers.py:274-282):
when prompts match the stub's id, set `prompt_count`, `first_activity`, and
raise `last_activity` to the latest prompt timestamp if that is newer. -/
def reconcileSession (history : List Prompt) (s : Session) : Session :=
  match getPrompts history s.session_id with
  | [] => s
  | p :: rest =>
    { s with
      prompt_count := (p :: rest).length
      first_activity := some (pyMinTs (p :: rest))
      last_activity :=
        match s.last_activity with
        | none => some (pyMaxTs (p :: rest))
        | some la =>
          if la.millis < (pyMaxTs (p :: rest)).millis then some (pyMaxTs (p :: rest))
          else some la }

/-- Sort key `s.last_activity or datetime.min.replace(tzinfo=utc)` used when
ordering the reconciled sessions (a `datetime` is always truthy, so the `or`
only replaces `None`). -/
def sessionSortKey (s : Session) : Int :=
  match s.last_activity with
  | some d => d.millis
  | none => pyDatetimeMin.millis

/-- `_discover_all_sessions` (parsers.py:267-284): reconcile every stub of
every project, then sort all sessions by last activity, newest first. -/
def discoverAllSessions (history : List Prompt) (projects : List Project) :
    List Session :=
  sortBy (fun a b => sessionSortKey b ≤ sessionSortKey a)
    (projects.flatMap (fun proj => proj.sessions.map (reconcileSession history)))

/-! ## Tool-use summarisation and transcript reading (parsers.py) -/

/-- `_summarize_tool_use` (parsers.py:521-540).  Dict values of
`tool_input` are strings in all observed data; `getStrD` supplies the `"?"`
default when the key is absent. -/
def summarizeToolUse (tool_name : String) (tool_input : Json) : String :=
  if tool_name = "Read" then "Read " ++ tool_input.getStrD "file_path" "?"
  else if tool_name = "Write" then "Write " ++ tool_input.getStrD "file_path" "?"
  else if tool_name = "Edit" then "Edit " ++ tool_input.getStrD "file_path" "?"
  else if tool_name = "Bash" then "$ " ++ pyTake (tool_input.getStrD "command" "?") 100
  else if tool_name = "Glob" then "Glob " ++ tool_input.getStrD "pattern" "?"
  else if tool_name = "Grep" then
    "Grep \x27" ++ tool_input.getStrD "pattern" "?" ++ "\x27"
  else if tool_name = "Task" then "Task: " ++ tool_input.getStrD "description" "?"
  else if tool_name = "WebSearch" then "Search: " ++ tool_input.getStrD "query" "?"
  else tool_name ++ "()"

/-- Content extraction for a `user` transcript line
(parsers.py:316-329): a string body is taken whole; a part list concatenates
its `text`-typed dict parts and bare-string parts. -/
def userContent (msgData : Json) : String :=
  match msgData with
  | .obj _ =>
    match msgData.get "content" with
    | some (.str s) => s
    | some (.arr parts) =>
      parts.foldl
        (fun acc part =>
          match part with
          | .obj _ => if part.getStrD "type" "" = "text"
                      then acc ++ part.getStrD "text" "" else acc
          | .str s => acc ++ s
          | _ => acc)
        ""
    | _ => ""
  | _ => ""

/-- Messages produced by one part of an `assistant` content list
(parsers.py:344-375). -/
def assistantPartMsgs (ts : Option PyDatetime) (part : Json) : List SessionMessage :=
  match part with
  | .obj _ =>
    if part.getStrD "type" "" = "text" then
      if pyStripS (part.getStrD "text" "") ≠ "" then
        [{ role := "assistant", content := pyStripS (part.getStrD "text" ""),
           timestamp := ts, message_type := some "text" }]
      else []
    else if part.getStrD "type" "" = "thinking" then
      let thinking := pyStripS (part.getStrD "thinking" "")
      if thinking ≠ "" then
        [{ role := "system", content := "[Thinking] " ++ pyTake thinking 300,
           timestamp := ts, message_type := some "thinking" }]
      else []
    else if part.getStrD "type" "" = "tool_use" then
      let toolName := part.getStrD "name" "unknown"
      let toolInput := part.getD "input" (.obj [])
      [{ role := "tool", content := summarizeToolUse toolName toolInput,
         timestamp := ts, tool_name := some toolName,
         message_type := some "tool_use" }]
    else []
  | _ => []

/-- Messages produced by a single decoded transcript line
(`parse_session_transcript` body, parsers.py:307-406). -/
def processLine (data : Json) : List SessionMessage :=
  let msgType := data.getStrD "type" ""
  let ts := transcriptTs (data.get "timestamp")
  if msgType = "user" then
    let content := userContent (data.getD "message" (.obj []))
    let clean := pyStripS content
    if clean ≠ "" ∧ ¬ pyStartsWith clean "<command-" then
      [{ role := "user", content := clean, timestamp := ts,
         message_type := some "user" }]
    else []
  else if msgType = "assistant" then
    match data.getD "message" (.obj []) with
    | .obj kvs =>
      match Json.get (.obj kvs) "content" with
      | some (.arr parts) => parts.flatMap (assistantPartMsgs ts)
      | some (.str s) =>
        if pyStripS s ≠ "" then
          [{ role := "assistant", content := pyStripS s, timestamp := ts,
             message_type := some "text" }]
        else []
      | _ => []
    | _ => []
  else if msgType = "summary" then
    let content := data.getStrD "summary" ""
    if content ≠ "" then
      [{ role := "system", content := "[Summary] " ++ pyTake content 200,
         timestamp := ts, message_type := some "summary" }]
    else []
  else if msgType = "system" then
    let subtype := data.getStrD "subtype" ""
    let content := data.getStrD "content" ""
    if subtype ≠ "" ∧ content ≠ "" then
      [{ role := "system", content := "[" ++ subtype ++ "] " ++ pyTake content 150,
         timestamp := ts, message_type := some "system" }]
    else []
  else []

/-- The reading loop of `parse_session_transcript` (parsers.py:295-406):
the `count >= max_messages` break is evaluated once per line, before the line
is decoded; all messages of a line are appended and `count` advances by their
number. -/
def parseTranscriptGo (maxMessages : Nat) : List (Option Json) → Nat → List SessionMessage
  | [], _ => []
  | l :: rest, count =>
    if maxMessages ≤ count then []
    else
      match l with
      | none => parseTranscriptGo maxMessages rest count
      | some data =>
        let ms := processLine data
        ms ++ parseTranscriptGo maxMessages rest (count + ms.length)

/-- `parse_session_transcript(jsonl_path, max_messages)` (parsers.py:287-408)
on the decoded lines of an existing file (a missing path short-circuits to
`[]` before this loop). -/
def parseSessionTranscript (lines : List (Option Json)) (maxMessages : Nat) :
    List SessionMessage :=
  parseTranscriptGo maxMessages lines 0

/-- Number of messages one raw line contributes to the transcript. -/
def lineYield : Option Json → Nat
  | none => 0
  | some data => (processLine data).length

/-! ## Deep search (parsers.py `search_conversations`) -/

/-- One deep-search hit. -/
structure SearchResult where
  session_id : String
  role : String
  snippet : String
  timestamp : Json

/-- The raw text a deep-search scan extracts from one decoded line
(parsers.py:436-458): `user` lines concatenate string bodies directly and
list parts with a trailing space each; `assistant` lines concatenate
`text`-typed dict parts with a trailing space each; all other types yield
the empty string. -/
def lineText (data : Json) : String :=
  let msgType := data.getStrD "type" ""
  if msgType = "user" then
    match data.getD "message" (.obj []) with
    | .obj kvs =>
      match Json.get (.obj kvs) "content" with
      | some (.str s) => s
      | some (.arr parts) =>
        parts.foldl
          (fun acc p =>
            match p with
            | .obj _ => if p.getStrD "type" "" = "text"
                        then acc ++ p.getStrD "text" "" ++ " " else acc
            | .str s => acc ++ s ++ " "
            | _ => acc)
          ""
      | _ => ""
    | _ => ""
  else if msgType = "assistant" then
    match data.getD "message" (.obj []) with
    | .obj kvs =>
      match Json.get (.obj kvs) "content" with
      | some (.arr parts) =>
        parts.foldl
          (fun acc p =>
            match p with
            | .obj _ => if p.getStrD "type" "" = "text"
                        then acc ++ p.getStrD "text" "" ++ " " else acc
            | _ => acc)
          ""
      | _ => ""
    | _ => ""
  else ""

/-- The raw snippet window of `search_conversations` (parsers.py:463-465):
`text[start:end]` with `start = max(0, idx - 40)` and
`end = min(len(text), idx + len(query) + 40)`. -/
def snippetWindow (qlen : Nat) (tdata : List Char) (idx : Nat) : List Char :=
  (tdata.drop (idx - 40)).take (Nat.min tdata.length (idx + qlen + 40) - (idx - 40))

/-- The window with newlines flattened to spaces and stripped
(parsers.py:465): `text[start:end].replace("\n", " ").strip()`. -/
def snippetCore (qlen : Nat) (tdata : List Char) (idx : Nat) : List Char :=
  pyStrip ((snippetWindow qlen tdata idx).map (fun c => if c = '\n' then ' ' else c))

/-- The finished snippet characters (parsers.py:465-469): the stripped
window, `...`-prefixed when `start > 0` and `...`-suffixed when
`end < len(text)`. -/
def snippetChars (qlen : Nat) (tdata : List Char) (idx : Nat) : List Char :=
  if Nat.min tdata.length (idx + qlen + 40) < tdata.length then
    (if 0 < idx - 40 then "...".data ++ snippetCore qlen tdata idx
     else snippetCore qlen tdata idx) ++ "...".data
  else
    if 0 < idx - 40 then "...".data ++ snippetCore qlen tdata idx
    else snippetCore qlen tdata idx

/-- Snippet extraction around the first case-insensitive match
(parsers.py:460-469): a window of 40 characters of context either side of
the match, newlines flattened to spaces, stripped, and ellipsis-marked on
each truncated side.  `none` when the query does not occur in the text. -/
def makeSnippet (query text : String) : Option String :=
  match findSub (pyLower query.data) (pyLower text.data) with
  | none => none
  | some idx => some (String.mk (snippetChars query.data.length text.data idx))

/-- A session paired with its transcript contents for deep search; `jsonl`
is `none` when the path is missing (or unreadable, the caught `OSError`
case). -/
structure SearchSession where
  session : Session
  jsonl : Option (List (Option Json))

/-- The inner line loop of `search_conversations` (parsers.py:428-476):
re-checks the global result cap before each line and appends at most one
result per matching line. -/
def scanLines (query : String) (maxResults : Nat) (sid : String) :
    List (Option Json) → List SearchResult → List SearchResult
  | [], acc => acc
  | l :: rest, acc =>
    if maxResults ≤ acc.length then acc
    else
      match l with
      | none => scanLines query maxResults sid rest acc
      | some data =>
        match makeSnippet query (lineText data) with
        | none => scanLines query maxResults sid rest acc
        | some snip =>
          scanLines query maxResults sid rest
            (acc ++ [{ session_id := sid
                       role := if data.getStrD "type" "" = "user" then "user" else "assistant"
                       snippet := snip
                       timestamp := data.getD "timestamp" (.str "") }])

/-- The outer session loop of `search_conversations` (parsers.py:417-478):
stop once the cap is reached, skip sessions without a readable transcript or
with fewer than 100 bytes of data. -/
def searchGo (query : String) (maxResults : Nat) :
    List SearchSession → List SearchResult → List SearchResult
  | [], acc => acc
  | s :: rest, acc =>
    if maxResults ≤ acc.length then acc
    else
      match s.jsonl with
      | none => searchGo query maxResults rest acc
      | some lines =>
        if s.session.jsonl_size < 100 then searchGo query maxResults rest acc
        else searchGo query maxResults rest
          (scanLines query maxResults s.session.session_id lines acc)

/-- `search_conversations(query, max_results)` (parsers.py:411-480) over the
given session list. -/
def searchConversations (query : String) (maxResults : Nat)
    (sessions : List SearchSession) : List SearchResult :=
  searchGo query maxResults sessions []

/-! ## Stats parsing and aggregation (parsers.py) -/

/-- `_parse_hour_counts` (parsers.py:568-570):
`{int(h): int(c) for h, c in raw.items()}`.  The `int` conversions are not
wrapped in any `try`, so a non-numeric key or value raises out of the
function; a non-dict `hourCounts` value raises `AttributeError` at
`.items()`. -/
def parseHourCounts (data : Json) : Except String (List (Int × Int)) :=
  match data.getD "hourCounts" (.obj []) with
  | .obj kvs => kvs.mapM (fun kv => do
      let h ← pyIntOfString kv.1
      let c ← pyInt kv.2
      pure (h, c))
  | _ => .error "AttributeError"

/-- `get_global_stats` (parsers.py:692-715) as a function of the parsed
inputs it reads through the cache accessors. -/
def getGlobalStats (stats : List DailyStats) (history : List Prompt)
    (projects : List Project) (modelUsages : List ModelUsage)
    (hourCounts : List (Int × Int)) (longest : Json) : GlobalStats :=
  { total_messages := (stats.map (·.message_count)).sum
    total_sessions := (stats.map (·.session_count)).sum
    total_tools := (stats.map (·.tool_call_count)).sum
    total_prompts := history.length
    total_projects := (projects.filter (fun p => 0 < p.session_count)).length
    total_data_bytes := (projects.map (·.total_size)).sum
    first_date := match stats.head? with
                  | some s => s.date
                  | none => "?"
    last_date := match stats.getLast? with
                 | some s => s.date
                 | none => "?"
    active_days := stats.length
    daily_stats := stats
    model_usages := modelUsages
    hour_counts := hourCounts
    longest_session_id := longest.getStrD "sessionId" ""
    longest_session_duration_ms := match longest.get "duration" with
                                   | some (.num n) => n
                                   | _ => 0
    longest_session_msgs := match longest.get "messageCount" with
                            | some (.num n) => n
                            | _ => 0 }

/-! ## Cache layer (cache.py) -/

/-- A cache slot (cache.py:13-21).  `time.time()` values are modelled as
integer seconds. -/
structure CacheEntry (α : Type) where
  data : Option α
  timestamp : Int
  ttl : Int
deriving DecidableEq, Repr

/-- `CacheEntry.is_valid` (cache.py:19-21): holds data and is within its
TTL. -/
def CacheEntry.isValid {α : Type} (e : CacheEntry α) (now : Int) : Bool :=
  e.data.isSome ∧ now - e.timestamp < e.ttl

/-- The `_entries` dict of the cache singleton. -/
def CacheState (α : Type) : Type := List (String × CacheEntry α)

/-- `DataCache._get_or_load` (cache.py:35-41), with the wall clock passed
explicitly and `loader` the value `loader()` would produce now: return the
cached data when the entry exists and is valid, otherwise invoke the loader
and store a fresh entry. -/
def getOrLoad {α : Type} (st : CacheState α) (key : String) (loader : α)
    (now : Int) (ttl : Int) : α × CacheState α :=
  match lookupKey st key with
  | some e =>
    match e.data with
    | some v =>
      if now - e.timestamp < e.ttl then (v, st)
      else (loader, updateKey st key ⟨some loader, now, ttl⟩)
    | none => (loader, updateKey st key ⟨some loader, now, ttl⟩)
  | none => (loader, updateKey st key ⟨some loader, now, ttl⟩)

/-- `DataCache.invalidate` (cache.py:61-66): pop one key when given a truthy
key (the empty string is falsy and clears everything, like `None`). -/
def cacheInvalidate {α : Type} (st : CacheState α) (key : Option String) :
    CacheState α :=
  match key with
  | some k => if k = "" then [] else removeKey st k
  | none => []

/-! ## Helper lemmas: association lists, sorting, session-prompt lookup -/

theorem lookup_updateKey_self {β : Type} (st : List (String × β)) (k : String) (e : β) :
    lookupKey (updateKey st k e) k = some e := by
  induction st with
  | nil => simp [updateKey, lookupKey]
  | cons kv rest ih =>
    by_cases h : kv.1 = k
    · simp [updateKey, lookupKey, h]
    · simp [updateKey, lookupKey, h, ih]

theorem lookup_updateKey_ne {β : Type} (st : List (String × β)) (k k2 : String) (e : β)
    (h : k2 ≠ k) : lookupKey (updateKey st k e) k2 = lookupKey st k2 := by
  induction st with
  | nil => simp [updateKey, lookupKey, Ne.symm h]
  | cons kv rest ih =>
    obtain ⟨k1, v1⟩ := kv
    by_cases hk : k1 = k
    · subst hk
      simp [updateKey, lookupKey, Ne.symm h]
    · by_cases hk2 : k1 = k2
      · subst hk2
        simp [updateKey, lookupKey, hk]
      · simp [updateKey, lookupKey, hk, hk2, ih]

theorem lookup_removeKey_self {β : Type} (st : List (String × β)) (k : String) :
    lookupKey (removeKey st k) k = none := by
  induction st with
  | nil => simp [removeKey, lookupKey]
  | cons kv rest ih =>
    obtain ⟨k1, v1⟩ := kv
    by_cases h : k1 = k
    · simp [removeKey, lookupKey, h, ih]
    · simp [removeKey, lookupKey, h, ih]

theorem lookup_removeKey_ne {β : Type} (st : List (String × β)) (k k2 : String)
    (h : k2 ≠ k) : lookupKey (removeKey st k) k2 = lookupKey st k2 := by
  induction st with
  | nil => simp [removeKey]
  | cons kv rest ih =>
    obtain ⟨k1, v1⟩ := kv
    by_cases hk : k1 = k
    · subst hk
      simp [removeKey, lookupKey, Ne.symm h, ih]
    · by_cases hk2 : k1 = k2
      · subst hk2
        simp [removeKey, lookupKey, hk, ih]
      · simp [removeKey, lookupKey, hk, hk2, ih]

theorem lookup_append {β : Type} (a b : List (String × β)) (k : String) :
    lookupKey (a ++ b) k =
      match lookupKey a k with
      | some v => some v
      | none => lookupKey b k := by
  induction a with
  | nil => simp [lookupKey]
  | cons kv rest ih =>
    by_cases h : kv.1 = k <;> simp [lookupKey, h, ih]

theorem mem_insertBy {α : Type} (le : α → α → Bool) (x a : α) (l : List α) :
    a ∈ insertBy le x l ↔ a = x ∨ a ∈ l := by
  induction l with
  | nil => simp [insertBy]
  | cons y rest ih =>
    by_cases h : le x y
    · simp [insertBy, h]
    · simp only [insertBy, if_neg h, List.mem_cons, ih]
      tauto

theorem mem_sortBy {α : Type} (le : α → α → Bool) (a : α) (l : List α) :
    a ∈ sortBy le l ↔ a ∈ l := by
  induction l with
  | nil => simp [sortBy]
  | cons x rest ih => simp [sortBy, mem_insertBy, ih]

theorem lookup_insertPrompt (m : List (String × List Prompt)) (p : Prompt) (sid : String) :
    lookupKey (insertPrompt m p) sid =
      if p.session_id = sid then some ((lookupKey m sid).getD [] ++ [p])
      else lookupKey m sid := by
  unfold insertPrompt
  by_cases h : p.session_id = sid
  · subst h
    match hm : lookupKey m p.session_id with
    | some ps => simp [hm, lookup_updateKey_self]
    | none => simp [hm, lookup_append, lookupKey]
  · match hm : lookupKey m p.session_id with
    | some ps => simp [hm, h, lookup_updateKey_ne _ _ _ _ (Ne.symm h)]
    | none =>
      simp only [hm, if_neg h, lookup_append]
      match hs : lookupKey m sid with
      | some v => rfl
      | none => simp [lookupKey, h]

theorem foldl_insertPrompt_lookup (history : List Prompt) (sid : String) :
    ∀ m : List (String × List Prompt),
      (lookupKey (history.foldl insertPrompt m) sid).getD []
        = (lookupKey m sid).getD [] ++ history.filter (fun p => p.session_id == sid) := by
  induction history with
  | nil => intro m; simp
  | cons p rest ih =>
    intro m
    simp only [List.foldl_cons, List.filter_cons]
    rw [ih]
    by_cases h : p.session_id = sid
    · simp [lookup_insertPrompt, h]
    · simp [lookup_insertPrompt, h]

/-- The `session_prompts` dict lookup agrees with filtering the history by
session id. -/
theorem getPrompts_eq_filter (history : List Prompt) (sid : String) :
    getPrompts history sid = history.filter (fun p => p.session_id == sid) := by
  unfold getPrompts buildSessionPrompts
  rw [foldl_insertPrompt_lookup]
  simp [lookupKey]

/-! ## Claim C4 -/

/-- C4: the claim that every decoder terminates without raising fails on the
code.  `_parse_hour_counts` applies bare `int(...)` conversions, so the valid
stats document `{"hourCounts": {"x": 1}}` raises `ValueError`; `_parse_history`
catches only `JSONDecodeError`/`ValueError`, so the history line
`{"timestamp": "a"}` raises `TypeError` at `ts / 1000`; a missing history file
does yield an empty result as claimed. -/
theorem C4_decoder_crash :
    parseHourCounts (Json.obj [("hourCounts", Json.obj [("x", Json.num 1)])])
        = .error "ValueError"
      ∧ parseHistory (some [some (Json.obj [("timestamp", Json.str "a")])])
        = .error "TypeError"
      ∧ parseHistory none = .ok [] :=
  ⟨rfl, rfl, rfl⟩

/-! ## Claim C5 -/

/-- C5 counterexample: the cache layer does impose time-based expiry.  A key
populated (value 42) at time 0 with the default 300-second TTL is reloaded
from the loader (now yielding 99) on an access at time 400 with no
invalidation in between, so the access does not return the identical cached
value. -/
theorem C5_ttl_counterexample :
    (getOrLoad ((getOrLoad ([] : CacheState Int) "stats" 42 0 300).2)
        "stats" 99 400 300).1 = 99
      ∧ (getOrLoad ((getOrLoad ([] : CacheState Int) "stats" 42 0 300).2)
        "stats" 99 400 300).1 ≠ 42 := by
  decide

/-- C5 (amended): once a key is populated, every access within the entry's
TTL returns the identical in-memory value and leaves the cache unchanged —
no staleness check against the underlying files; only after the TTL elapses
(or on explicit invalidation) is the loader consulted again. -/
theorem C5_cache_within_ttl {α : Type} (st : CacheState α) (key : String)
    (v loader : α) (t0 t1 ttl ttl2 : Int) (hfresh : t1 - t0 < ttl) :
    getOrLoad (updateKey st key ⟨some v, t0, ttl⟩) key loader t1 ttl2
      = (v, updateKey st key ⟨some v, t0, ttl⟩) := by
  unfold getOrLoad
  rw [lookup_updateKey_self]
  simp [hfresh]

/-- C5 witness: populating "projects" with value 1 at time 0 and accessing at
time 100 (inside the 300-second TTL) returns the cached 1 even though the
loader would now produce 2. -/
theorem C5_cache_within_ttl_witness :
    ((100 : Int) - 0 < 300)
      ∧ getOrLoad (updateKey ([] : CacheState Int) "projects" ⟨some 1, 0, 300⟩)
          "projects" 2 100 300
        = (1, updateKey ([] : CacheState Int) "projects" ⟨some 1, 0, 300⟩) :=
  ⟨by decide, C5_cache_within_ttl [] "projects" 1 2 0 100 300 300 (by decide)⟩

/-! ## Claim C9 -/

/-- C9 counterexample: after populating "projects" (value 1) and "stats"
(value 10) at time 0 and invalidating only "projects", an access to the
untouched key "stats" at time 400 does not return the previously cached 10:
its TTL has lapsed and the loader's current value 20 is returned instead. -/
theorem C9_invalidate_counterexample :
    (getOrLoad
        (cacheInvalidate
          ((getOrLoad ((getOrLoad ([] : CacheState Int) "projects" 1 0 300).2)
            "stats" 10 0 300).2)
          (some "projects"))
        "stats" 20 400 300).1 = 20
      ∧ (getOrLoad
        (cacheInvalidate
          ((getOrLoad ((getOrLoad ([] : CacheState Int) "projects" 1 0 300).2)
            "stats" 10 0 300).2)
          (some "projects"))
        "stats" 20 400 300).1 ≠ 10 := by
  decide

/-- C9 (amended): with "projects" and "stats" both populated at time `t0`,
`invalidate("projects")` removes exactly the "projects" entry: any other key
keeps its binding untouched, the next "projects" access re-invokes the
loader, and a "stats" access within its TTL still returns the previously
cached value. -/
theorem C9_invalidate_per_key {α : Type} (st : CacheState α)
    (vp vs loaderP loaderS : α) (t0 t1 tp ttl ttlp : Int) (k : String)
    (hk : k ≠ "projects") (hfresh : t1 - t0 < ttl) :
    lookupKey
        (cacheInvalidate
          (updateKey (updateKey st "projects" ⟨some vp, t0, ttl⟩) "stats"
            ⟨some vs, t0, ttl⟩) (some "projects")) k
      = lookupKey
        (updateKey (updateKey st "projects" ⟨some vp, t0, ttl⟩) "stats"
          ⟨some vs, t0, ttl⟩) k
      ∧ (getOrLoad
          (cacheInvalidate
            (updateKey (updateKey st "projects" ⟨some vp, t0, ttl⟩) "stats"
              ⟨some vs, t0, ttl⟩) (some "projects"))
          "projects" loaderP tp ttlp).1 = loaderP
      ∧ (getOrLoad
          (cacheInvalidate
            (updateKey (updateKey st "projects" ⟨some vp, t0, ttl⟩) "stats"
              ⟨some vs, t0, ttl⟩) (some "projects"))
          "stats" loaderS t1 ttl).1 = vs := by
  have hproj : ("projects" : String) ≠ "" := by decide
  refine ⟨?_, ?_, ?_⟩
  · simp only [cacheInvalidate, if_neg hproj]
    exact lookup_removeKey_ne _ _ _ hk
  · simp only [cacheInvalidate, if_neg hproj]
    unfold getOrLoad
    rw [lookup_removeKey_self]
  · simp only [cacheInvalidate, if_neg hproj]
    unfold getOrLoad
    rw [lookup_removeKey_ne _ _ _ (by decide), lookup_updateKey_self]
    simp [hfresh]

/-- C9 witness: the amended per-key invalidation facts at concrete values
(populate both keys at time 0, read "stats" back at time 100). -/
theorem C9_invalidate_per_key_witness :
    (("stats" : String) ≠ "projects")
      ∧ ((100 : Int) - 0 < 300)
      ∧ (lookupKey
          (cacheInvalidate
            (updateKey (updateKey ([] : CacheState Int) "projects" ⟨some 1, 0, 300⟩)
              "stats" ⟨some 10, 0, 300⟩) (some "projects")) "stats"
        = lookupKey
          (updateKey (updateKey ([] : CacheState Int) "projects" ⟨some 1, 0, 300⟩)
            "stats" ⟨some 10, 0, 300⟩) "stats"
        ∧ (getOrLoad
            (cacheInvalidate
              (updateKey (updateKey ([] : CacheState Int) "projects" ⟨some 1, 0, 300⟩)
                "stats" ⟨some 10, 0, 300⟩) (some "projects"))
            "projects" 2 50 300).1 = 2
        ∧ (getOrLoad
            (cacheInvalidate
              (updateKey (updateKey ([] : CacheState Int) "projects" ⟨some 1, 0, 300⟩)
                "stats" ⟨some 10, 0, 300⟩) (some "projects"))
            "stats" 20 100 300).1 = 10) :=
  ⟨by decide, by decide,
    C9_invalidate_per_key [] 1 10 2 20 0 100 50 300 300 "stats"
      (by decide) (by decide)⟩

/-! ## Claim C6 -/

/-- C6 counterexample: with home directory `/home/u` the encoded prefix is
`-home-u` (the leading slash also becomes a dash), so the spec's encoded
names `home-u-Projects-myapp` and `home-u--claude` match no prefix and are
returned unchanged rather than decoding to `myapp` and `~/.claude`. -/
theorem C6_decode_counterexample :
    shortenProjectDir "/home/u" "home-u-Projects-myapp" = "home-u-Projects-myapp"
      ∧ shortenProjectDir "/home/u" "home-u-Projects-myapp" ≠ "myapp"
      ∧ shortenProjectDir "/home/u" "home-u--claude" = "home-u--claude"
      ∧ shortenProjectDir "/home/u" "home-u--claude" ≠ "~/.claude" := by
  decide

/-- C6 (amended): with home directory `/home/u`, the on-disk encoded names
carry the leading dash of the encoded root: `-home-u-Projects-myapp` decodes
to `myapp` and `-home-u--claude` (double dash encoding the leading dot)
decodes to `~/.claude`. -/
theorem C6_decode_encoded_names :
    shortenProjectDir "/home/u" "-home-u-Projects-myapp" = "myapp"
      ∧ shortenProjectDir "/home/u" "-home-u--claude" = "~/.claude" := by
  decide

/-! ## Claim C7 -/

/-- C7: tool-use summarisation is a pure function of (tool name, tool input):
`Bash` renders `$ ` plus the command truncated to 100 characters, the
file-path tools render `Verb file_path`, and every unrecognised tool name
renders `name()`. -/
theorem C7_summarize (cmd fp1 fp2 fp3 name : String) (input : Json)
    (hname : name ∉ ["Read", "Write", "Edit", "Bash", "Glob", "Grep", "Task",
      "WebSearch"]) :
    summarizeToolUse "Bash" (.obj [("command", .str cmd)]) = "$ " ++ pyTake cmd 100
      ∧ summarizeToolUse "Read" (.obj [("file_path", .str fp1)]) = "Read " ++ fp1
      ∧ summarizeToolUse "Write" (.obj [("file_path", .str fp2)]) = "Write " ++ fp2
      ∧ summarizeToolUse "Edit" (.obj [("file_path", .str fp3)]) = "Edit " ++ fp3
      ∧ summarizeToolUse name input = name ++ "()" := by
  simp only [List.mem_cons, List.mem_singleton, not_or] at hname
  obtain ⟨h1, h2, h3, h4, h5, h6, h7, h8, -⟩ := hname
  refine ⟨?_, ?_, ?_, ?_, ?_⟩
  · simp [summarizeToolUse, Json.getStrD, Json.get, lookupKey]
  · simp [summarizeToolUse, Json.getStrD, Json.get, lookupKey]
  · simp [summarizeToolUse, Json.getStrD, Json.get, lookupKey]
  · simp [summarizeToolUse, Json.getStrD, Json.get, lookupKey]
  · simp [summarizeToolUse, h1, h2, h3, h4, h5, h6, h7, h8]

/-- C7 witness: the summariser at the spec's concrete inputs, including the
unrecognised tool `FooTool`. -/
theorem C7_summarize_witness :
    (("FooTool" : String) ∉ ["Read", "Write", "Edit", "Bash", "Glob", "Grep",
        "Task", "WebSearch"])
      ∧ (summarizeToolUse "Bash" (.obj [("command", .str "echo hi")])
          = "$ " ++ pyTake "echo hi" 100
        ∧ summarizeToolUse "Read" (.obj [("file_path", .str "/a/b.py")])
          = "Read " ++ "/a/b.py"
        ∧ summarizeToolUse "Write" (.obj [("file_path", .str "/w.py")])
          = "Write " ++ "/w.py"
        ∧ summarizeToolUse "Edit" (.obj [("file_path", .str "/e.py")])
          = "Edit " ++ "/e.py"
        ∧ summarizeToolUse "FooTool" (.obj []) = "FooTool" ++ "()") :=
  ⟨by decide,
    C7_summarize "echo hi" "/a/b.py" "/w.py" "/e.py" "FooTool" (.obj [])
      (by decide)⟩

/-! ## Claim C10 -/

theorem sum_size_split (l : List Project) :
    ((l.filter (fun p => 0 < p.session_count)).map (fun p => p.total_size)).sum
        + ((l.filter (fun p => p.session_count = 0)).map (fun p => p.total_size)).sum
      = (l.map (fun p => p.total_size)).sum := by
  induction l with
  | nil => simp
  | cons p rest ih =>
    by_cases h : 0 < p.session_count
    · have h2 : ¬ p.session_count = 0 := by omega
      simp only [List.filter_cons, List.map_cons, List.sum_cons]
      simp [h, h2, ← ih]
      omega
    · have h2 : p.session_count = 0 := by omega
      simp only [List.filter_cons, List.map_cons, List.sum_cons]
      simp [h, h2, ← ih]
      omega

/-- C10: in `get_global_stats`, `total_projects` counts exactly the
discovered projects with at least one session file, while `total_data_bytes`
is the sum of `total_size` over all discovered projects — those with
sessions and those with none alike. -/
theorem C10_global_stats (stats : List DailyStats) (history : List Prompt)
    (projects : List Project) (mu : List ModelUsage) (hc : List (Int × Int))
    (longest : Json) :
    (getGlobalStats stats history projects mu hc longest).total_projects
        = (projects.filter (fun p => 0 < p.session_count)).length
      ∧ (getGlobalStats stats history projects mu hc longest).total_data_bytes
        = ((projects.filter (fun p => 0 < p.session_count)).map
            (fun p => p.total_size)).sum
          + ((projects.filter (fun p => p.session_count = 0)).map
            (fun p => p.total_size)).sum := by
  refine ⟨rfl, ?_⟩
  show (projects.map (fun p => p.total_size)).sum = _
  rw [sum_size_split]

/-! ## Claim C1 -/

/-- The prompts of the history sharing a session id (the right-hand side the
reconciliation claim speaks about). -/
def matchingPrompts (history : List Prompt) (sid : String) : List Prompt :=
  history.filter (fun p => p.session_id == sid)

/-- C1: for every directory-discovered stub carried by some project,
reconciliation places its updated record in the output of
`_discover_all_sessions`; a stub with no matching prompt is unchanged
(keeping `prompt_count = 0`, no `first_activity`, and its mtime-derived
`last_activity`); a stub with matching prompts gets their count, the minimum
matching timestamp as `first_activity`, and as `last_activity` the maximum
of its mtime-derived value and the latest matching timestamp — which never
regresses below the mtime-derived value. -/
theorem C1_reconciliation (history : List Prompt) (projects : List Project)
    (proj : Project) (s : Session) (la : PyDatetime)
    (hp : proj ∈ projects) (hs : s ∈ proj.sessions)
    (hla : s.last_activity = some la) :
    reconcileSession history s ∈ discoverAllSessions history projects
      ∧ (matchingPrompts history s.session_id = [] →
          reconcileSession history s = s)
      ∧ (matchingPrompts history s.session_id ≠ [] →
          (reconcileSession history s).prompt_count
              = (matchingPrompts history s.session_id).length
            ∧ (reconcileSession history s).first_activity
              = some (pyMinTs (matchingPrompts history s.session_id))
            ∧ (reconcileSession history s).last_activity
              = some (if la.millis
                    < (pyMaxTs (matchingPrompts history s.session_id)).millis
                  then pyMaxTs (matchingPrompts history s.session_id) else la)
            ∧ (∀ d, (reconcileSession history s).last_activity = some d →
                la.millis ≤ d.millis)) := by
  have hget : getPrompts history s.session_id = matchingPrompts history s.session_id :=
    getPrompts_eq_filter history s.session_id
  refine ⟨?_, ?_, ?_⟩
  · unfold discoverAllSessions
    rw [mem_sortBy, List.mem_flatMap]
    exact ⟨proj, hp, List.mem_map_of_mem _ hs⟩
  · intro hempty
    unfold reconcileSession
    rw [hget, hempty]
  · intro hne
    obtain ⟨p0, rest0, hsplit⟩ : ∃ p0 rest0,
        matchingPrompts history s.session_id = p0 :: rest0 := by
      cases h : matchingPrompts history s.session_id with
      | nil => exact absurd h hne
      | cons a b => exact ⟨a, b, rfl⟩
    have heq : getPrompts history s.session_id = p0 :: rest0 := hget.trans hsplit
    have hr : reconcileSession history s =
        { s with
          prompt_count := (p0 :: rest0).length
          first_activity := some (pyMinTs (p0 :: rest0))
          last_activity :=
            if la.millis < (pyMaxTs (p0 :: rest0)).millis
            then some (pyMaxTs (p0 :: rest0)) else some la } := by
      unfold reconcileSession
      rw [heq, hla]
    rw [hsplit, hr]
    refine ⟨rfl, rfl, ?_, ?_⟩
    · by_cases hlt : la.millis < (pyMaxTs (p0 :: rest0)).millis <;> simp [hlt]
    · intro d hd
      by_cases hlt : la.millis < (pyMaxTs (p0 :: rest0)).millis
      · simp only [if_pos hlt] at hd
        cases hd
        omega
      · simp only [if_neg hlt] at hd
        cases hd
        omega

/-- Concrete inputs for the C1 witness: two history prompts for session s1
and one project holding the matching stub. -/
def c1Prompt1 : Prompt :=
  { text := "first", timestamp := ⟨50, some 0⟩, project := "/home/u/Projects/x",
    session_id := "s1" }

def c1Prompt2 : Prompt :=
  { text := "second", timestamp := ⟨100, some 0⟩, project := "/home/u/Projects/x",
    session_id := "s1" }

def c1Stub : Session :=
  { session_id := "s1", project := "x", project_path := "-home-u-Projects-x",
    last_activity := some ⟨70, some 0⟩, jsonl_path := some "s1.jsonl",
    jsonl_size := 42 }

def c1Project : Project :=
  { name := "-home-u-Projects-x", path := "/home/u/.claude/projects/-home-u-Projects-x",
    display_name := "x", sessions := [c1Stub], total_size := 42, session_count := 1 }

/-- C1 witness: the reconciliation facts instantiated on a stub with
mtime-derived last activity 70 and matching prompts at 50 and 100: the
reconciled session has `prompt_count = 2`, `first_activity = 50`, and
`last_activity = 100`. -/
theorem C1_reconciliation_witness :
    (c1Project ∈ [c1Project] ∧ c1Stub ∈ c1Project.sessions
        ∧ c1Stub.last_activity = some ⟨70, some 0⟩)
      ∧ (reconcileSession [c1Prompt1, c1Prompt2] c1Stub
            ∈ discoverAllSessions [c1Prompt1, c1Prompt2] [c1Project]
          ∧ (matchingPrompts [c1Prompt1, c1Prompt2] c1Stub.session_id = [] →
              reconcileSession [c1Prompt1, c1Prompt2] c1Stub = c1Stub)
          ∧ (matchingPrompts [c1Prompt1, c1Prompt2] c1Stub.session_id ≠ [] →
              (reconcileSession [c1Prompt1, c1Prompt2] c1Stub).prompt_count
                  = (matchingPrompts [c1Prompt1, c1Prompt2] c1Stub.session_id).length
                ∧ (reconcileSession [c1Prompt1, c1Prompt2] c1Stub).first_activity
                  = some (pyMinTs (matchingPrompts [c1Prompt1, c1Prompt2]
                      c1Stub.session_id))
                ∧ (reconcileSession [c1Prompt1, c1Prompt2] c1Stub).last_activity
                  = some (if (⟨70, some 0⟩ : PyDatetime).millis
                        < (pyMaxTs (matchingPrompts [c1Prompt1, c1Prompt2]
                            c1Stub.session_id)).millis
                      then pyMaxTs (matchingPrompts [c1Prompt1, c1Prompt2]
                          c1Stub.session_id)
                      else ⟨70, some 0⟩)
                ∧ (∀ d, (reconcileSession [c1Prompt1, c1Prompt2] c1Stub).last_activity
                      = some d → (⟨70, some 0⟩ : PyDatetime).millis ≤ d.millis))) :=
  ⟨⟨by decide, by decide, by decide⟩,
    C1_reconciliation [c1Prompt1, c1Prompt2] [c1Project] c1Project c1Stub
      ⟨70, some 0⟩ (by decide) (by decide) (by decide)⟩

/-! ## Claim C2 -/

/-- An assistant transcript line whose content list holds two text parts,
so a single line yields two messages. -/
def c2TwoPartLine : Json :=
  .obj [("type", .str "assistant"),
    ("message", .obj [("content", .arr [
      .obj [("type", .str "text"), ("text", .str "a")],
      .obj [("type", .str "text"), ("text", .str "b")]])])]

/-- C2 counterexample: with `limit = 1`, a file whose single line is an
assistant message with two text parts produces two messages — the limit
check runs only at line boundaries, so the returned sequence exceeds
`limit`. -/
theorem C2_limit_counterexample :
    (parseSessionTranscript [some c2TwoPartLine] 1).length = 2 := by
  decide

theorem parseTranscriptGo_length (maxMessages k : Nat) (hk : 0 < k) :
    ∀ (lines : List (Option Json)) (count : Nat),
      (∀ l ∈ lines, lineYield l ≤ k) →
      (count < maxMessages →
        (parseTranscriptGo maxMessages lines count).length
          ≤ (maxMessages - count) + k - 1)
      ∧ (maxMessages ≤ count → (parseTranscriptGo maxMessages lines count).length = 0) := by
  intro lines
  induction lines with
  | nil =>
    intro count hb
    refine ⟨fun _ => ?_, fun _ => ?_⟩
    · simp only [parseTranscriptGo, List.length_nil]
      omega
    · simp only [parseTranscriptGo, List.length_nil]
  | cons l rest ih =>
    intro count hb
    have hbrest : ∀ x ∈ rest, lineYield x ≤ k := fun x hx => hb x (List.mem_cons_of_mem _ hx)
    have hyl : lineYield l ≤ k := hb l (List.mem_cons_self _ _)
    constructor
    · intro hcount
      match l with
      | none =>
        have := (ih count hbrest).1 hcount
        simpa [parseTranscriptGo, Nat.not_le.mpr hcount] using this
      | some data =>
        simp only [parseTranscriptGo, if_neg (Nat.not_le.mpr hcount),
          List.length_append]
        have hylen : (processLine data).length ≤ k := hyl
        by_cases hfull : maxMessages ≤ count + (processLine data).length
        · have := (ih (count + (processLine data).length) hbrest).2 hfull
          rw [this]
          omega
        · have := (ih (count + (processLine data).length) hbrest).1 (by omega)
          omega
    · intro hcount
      match l with
      | none =>
        simp [parseTranscriptGo, if_pos hcount]
      | some data =>
        simp [parseTranscriptGo, if_pos hcount]

/-- C2 (amended): the reader stops at the first line boundary at which
`limit` messages have been produced; since a single line can yield several
messages, the result holds at most `limit + k - 1` messages whenever every
line yields at most `k` messages — in particular at most `limit` messages
when each line yields at most one. -/
theorem C2_limit_per_line_bound (lines : List (Option Json)) (maxMessages k : Nat)
    (hk : 0 < k) (hbound : ∀ l ∈ lines, lineYield l ≤ k) :
    (parseSessionTranscript lines maxMessages).length ≤ maxMessages + k - 1 := by
  unfold parseSessionTranscript
  by_cases h0 : 0 < maxMessages
  · have := (parseTranscriptGo_length maxMessages k hk lines 0 hbound).1 h0
    omega
  · have hz : maxMessages = 0 := by omega
    subst hz
    have := (parseTranscriptGo_length 0 k hk lines 0 hbound).2 (Nat.le_refl 0)
    omega

/-- C2 witness: two two-part assistant lines with per-line yield bound 2 and
limit 3 stay within the amended bound 3 + 2 - 1 = 4. -/
theorem C2_limit_per_line_bound_witness :
    (0 < 2 ∧ ∀ l ∈ [some c2TwoPartLine, some c2TwoPartLine], lineYield l ≤ 2)
      ∧ (parseSessionTranscript [some c2TwoPartLine, some c2TwoPartLine] 3).length
        ≤ 3 + 2 - 1 :=
  ⟨⟨by decide, by decide⟩,
    C2_limit_per_line_bound [some c2TwoPartLine, some c2TwoPartLine] 3 2
      (by decide) (by decide)⟩

/-! ## Claim C8 -/

theorem splitTz_append_utc (base : List Char) :
    splitTz (base ++ ['+', '0', '0', ':', '0', '0']) = (base, some 0) := by
  unfold splitTz
  have hlen : (base ++ ['+', '0', '0', ':', '0', '0']).length = base.length + 6 := by
    simp
  rw [hlen]
  have hnot : ¬ (base.length + 6 < 6) := by omega
  rw [if_neg hnot]
  have h66 : base.length + 6 - 6 = base.length := by omega
  rw [h66, List.drop_left, List.take_left]
  norm_num
  rw [if_pos (show ('0'.isDigit = true) by decide)]
  rw [if_neg (show ¬ (('+' : Char) = '-') by decide)]
  have h0 : ('0'.toNat - 48 : Nat) = 0 := by decide
  rw [h0]
  norm_num

theorem pyReplace_z_suffix (base new : List Char) (hnz : 'Z' ∉ base) :
    pyReplace (base ++ ['Z']) ['Z'] new = base ++ new := by
  unfold pyReplace
  induction base with
  | nil =>
    simp [pyReplaceAux, List.isPrefixOf]
  | cons c rest ih =>
    have hc : c ≠ 'Z' := fun h => hnz (h ▸ List.mem_cons_self _ _)
    have hrest : 'Z' ∉ rest := fun h => hnz (List.mem_cons_of_mem _ h)
    simp only [List.cons_append, pyReplaceAux, List.append_eq]
    rw [if_neg, ih hrest]
    intro hcon
    have := hcon.2
    simp [List.isPrefixOf] at this
    exact hc this.symm

theorem fromisoformat_utc_suffix (s : String) (base : List Char)
    (hs : s.data = base ++ ['+', '0', '0', ':', '0', '0']) (dt : PyDatetime)
    (hdt : fromisoformat s = some dt) : dt.tzOffsetMinutes = some 0 := by
  unfold fromisoformat at hdt
  rw [hs, splitTz_append_utc] at hdt
  simp only [Prod.fst, Prod.snd] at hdt
  match hp : parseNaiveIso base with
  | some ms =>
    rw [hp] at hdt
    cases hdt
    rfl
  | none =>
    rw [hp] at hdt
    cases hdt

theorem historyStamp_aware (ts : Json) (d : PyDatetime)
    (h : historyStamp ts = .ok d) : d.tzOffsetMinutes = some 0 := by
  unfold historyStamp at h
  by_cases ht : ts.truthy
  · rw [if_pos ht] at h
    match ts with
    | .num n => cases h; rfl
    | .bool b => cases h; rfl
    | .null => exact absurd h (by simp)
    | .str s => exact absurd h (by simp)
    | .arr xs => exact absurd h (by simp)
    | .obj kvs => exact absurd h (by simp)
  · rw [if_neg ht] at h
    cases h
    rfl

theorem parseHistoryLine_aware (data : Json) (p : Prompt)
    (h : parseHistoryLine data = .ok p) : p.timestamp.tzOffsetMinutes = some 0 := by
  unfold parseHistoryLine at h
  match hs : historyStamp (data.getD "timestamp" (.num 0)) with
  | .error e => rw [hs] at h; cases h
  | .ok stamp =>
    rw [hs] at h
    cases h
    exact historyStamp_aware _ _ hs

theorem parseHistoryCore_aware (lines : List (Option Json)) (ps : List Prompt)
    (h : parseHistoryCore lines = .ok ps) (p : Prompt) (hp : p ∈ ps) :
    p.timestamp.tzOffsetMinutes = some 0 := by
  induction lines generalizing ps with
  | nil =>
    unfold parseHistoryCore at h
    cases h
    cases hp
  | cons l rest ih =>
    match l with
    | none =>
      unfold parseHistoryCore at h
      exact ih ps h hp
    | some data =>
      unfold parseHistoryCore at h
      match hd : parseHistoryLine data with
      | .error e => rw [hd] at h; cases h
      | .ok q =>
        rw [hd] at h
        simp only [Except.bind, bind] at h
        match hr : parseHistoryCore rest with
        | .error e =>
          rw [hr] at h
          cases h
        | .ok qs =>
          rw [hr] at h
          cases h
          rcases List.mem_cons.mp hp with hq | hq
          · subst hq
            exact parseHistoryLine_aware _ _ hd
          · exact ih qs hr hq

/-- A transcript summary line carrying an offset-free ISO timestamp. -/
def c8NaiveLine : Json :=
  .obj [("type", .str "summary"), ("summary", .str "done"),
    ("timestamp", .str "2024-01-01T10:00:00")]

/-- C8 counterexample: the transcript decoder accepts the line
`{"type":"summary","summary":"done","timestamp":"2024-01-01T10:00:00"}` and
stores a naive (timezone-less) datetime in the produced message:
`fromisoformat` only yields an aware value when the string carries an
explicit offset, and this accepted input carries none. -/
theorem C8_naive_timestamp_counterexample :
    (parseSessionTranscript [some c8NaiveLine] 500).map
        (fun m => m.timestamp.map PyDatetime.tzOffsetMinutes)
      = [some none] := by
  decide

/-- The history file and decoded prompt used by the C8 witness. -/
def c8HistLine : Json :=
  .obj [("display", .str "hello"), ("timestamp", .num 1700000000000),
    ("sessionId", .str "s1")]

def c8Prompt : Prompt :=
  { text := "hello", timestamp := ⟨1700000000000, some 0⟩, project := "unknown",
    session_id := "s1" }

/-- C8 (amended): every `Prompt` decoded from the history carries an aware
UTC timestamp (including the zero-timestamp sentinel), and a transcript
message timestamp decoded from a `Z`-suffixed ISO string is aware UTC (the
`Z` is rewritten to `+00:00` before parsing); only offset-free timestamp
strings are stored naive. -/
theorem C8_utc_normalization (file : Option (List (Option Json)))
    (ps : List Prompt) (hok : parseHistory file = .ok ps)
    (p : Prompt) (hp : p ∈ ps)
    (s : String) (base : List Char) (hsz : s.data = base ++ ['Z'])
    (hnz : 'Z' ∉ base) (dt : PyDatetime)
    (hdt : transcriptTs (some (.str s)) = some dt) :
    p.timestamp.tzOffsetMinutes = some 0 ∧ dt.tzOffsetMinutes = some 0 := by
  constructor
  · match file with
    | none =>
      simp only [parseHistory] at hok
      cases hok
      cases hp
    | some lines =>
      simp only [parseHistory] at hok
      match hc : parseHistoryCore lines with
      | .error e =>
        rw [hc] at hok
        cases hok
      | .ok qs =>
        rw [hc] at hok
        cases hok
        exact parseHistoryCore_aware lines qs hc p ((mem_sortBy _ _ _).mp hp)
  · simp only [transcriptTs] at hdt
    have hne : s ≠ "" := by
      intro hcon
      rw [hcon] at hsz
      exact absurd hsz.symm (by simp)
    rw [if_neg hne] at hdt
    have hrep : pyReplace s.data "Z".data "+00:00".data
        = base ++ ['+', '0', '0', ':', '0', '0'] := by
      rw [hsz]
      exact pyReplace_z_suffix base _ hnz
    refine fromisoformat_utc_suffix _ base ?_ dt hdt
    rw [hrep]

/-- C8 witness: a one-line history file with epoch-millisecond timestamp
1700000000000 decodes to a prompt with an aware UTC timestamp, and the
transcript timestamp string `2024-01-01T10:00:00Z` decodes to an aware UTC
instant. -/
theorem C8_utc_normalization_witness :
    (parseHistory (some [some c8HistLine]) = .ok [c8Prompt]
        ∧ c8Prompt ∈ [c8Prompt]
        ∧ ("2024-01-01T10:00:00Z" : String).data
          = "2024-01-01T10:00:00".data ++ ['Z']
        ∧ 'Z' ∉ "2024-01-01T10:00:00".data
        ∧ transcriptTs (some (.str "2024-01-01T10:00:00Z"))
          = some ⟨1704103200000, some 0⟩)
      ∧ c8Prompt.timestamp.tzOffsetMinutes = some 0
      ∧ (⟨1704103200000, some 0⟩ : PyDatetime).tzOffsetMinutes = some 0 :=
  ⟨⟨rfl, by decide, by decide, by decide, rfl⟩,
    C8_utc_normalization (some [some c8HistLine]) [c8Prompt] rfl c8Prompt
      (by decide) "2024-01-01T10:00:00Z" "2024-01-01T10:00:00".data
      (by decide) (by decide) ⟨1704103200000, some 0⟩ rfl⟩

/-! ## Claim C3 -/

theorem findSub_spec (q : List Char) :
    ∀ (t : List Char) (i : Nat), findSub q t = some i →
      q <+: t.drop i ∧ i + q.length ≤ t.length := by
  intro t
  induction t with
  | nil =>
    intro i h
    unfold findSub at h
    by_cases hp : q.isPrefixOf []
    · rw [if_pos hp] at h
      cases h
      have hq : q <+: [] := List.isPrefixOf_iff_prefix.mp hp
      refine ⟨hq, ?_⟩
      have := hq.length_le
      simpa using this
    · rw [if_neg hp] at h
      cases h
  | cons c rest ih =>
    intro i h
    unfold findSub at h
    by_cases hp : q.isPrefixOf (c :: rest)
    · rw [if_pos hp] at h
      cases h
      have hq : q <+: (c :: rest) := List.isPrefixOf_iff_prefix.mp hp
      exact ⟨hq, by simpa using hq.length_le⟩
    · rw [if_neg hp] at h
      match hf : findSub q rest with
      | none => rw [hf] at h; cases h
      | some j =>
        rw [hf] at h
        cases h
        obtain ⟨h1, h2⟩ := ih j hf
        refine ⟨?_, ?_⟩
        · simpa [List.drop] using h1
        · simp only [List.length_cons]
          omega

theorem infix_window {α : Type} (T : List α) (start idx n stop : Nat)
    (h1 : start ≤ idx) (h2 : idx + n ≤ stop) :
    (T.drop idx).take n <:+: (T.drop start).take (stop - start) := by
  have hdd : T.drop idx = (T.drop start).drop (idx - start) := by
    rw [List.drop_drop]
    congr 1
    omega
  rw [hdd]
  have hsplit : stop - start = (idx - start) + (n + (stop - idx - n)) := by omega
  rw [hsplit, List.take_add]
  have htake : ((T.drop start).drop (idx - start)).take n
      <+: ((T.drop start).drop (idx - start)).take (n + (stop - idx - n)) := by
    have := List.take_prefix n (((T.drop start).drop (idx - start)).take
      (n + (stop - idx - n)))
    rw [List.take_take] at this
    have hmin : n ⊓ (n + (stop - idx - n)) = n := by omega
    rwa [hmin] at this
  obtain ⟨r, hr⟩ := htake
  exact ⟨(T.drop start).take (idx - start), r, by rw [← hr, List.append_assoc]⟩

theorem dropWhile_append_infix (p : Char → Bool) (mid b : List Char)
    (hm : mid ≠ []) (hh : ∀ c ∈ mid.take 1, p c = false) :
    ∀ a : List Char, ∃ a2, List.dropWhile p (a ++ (mid ++ b)) = a2 ++ (mid ++ b) := by
  intro a
  induction a with
  | nil =>
    refine ⟨[], ?_⟩
    match mid, hm with
    | m0 :: mrest, _ =>
      have hpm : p m0 = false := hh m0 (by simp)
      simp [List.dropWhile_cons, hpm]
  | cons c arest ih =>
    by_cases hc : p c
    · obtain ⟨a2, ha2⟩ := ih
      refine ⟨a2, ?_⟩
      simp [List.dropWhile_cons, hc, ha2]
    · exact ⟨c :: arest, by simp [List.dropWhile_cons, hc]⟩

theorem pyStrip_infix (mid L : List Char) (hm : mid ≠ [])
    (hh : ∀ c ∈ mid.take 1, pyIsSpace c = false)
    (hl : ∀ c ∈ mid.drop (mid.length - 1), pyIsSpace c = false)
    (hinf : mid <:+: L) : mid <:+: pyStrip L := by
  obtain ⟨a, b, hab⟩ := hinf
  obtain ⟨init, lst, hconcat⟩ : ∃ init lst, mid = init ++ [lst] := by
    rcases List.eq_nil_or_concat mid with h | ⟨init, lst, h⟩
    · exact absurd h hm
    · exact ⟨init, lst, by simpa [List.concat_eq_append] using h⟩
  have hlast : pyIsSpace lst = false := by
    apply hl
    rw [hconcat]
    have hlen : (init ++ [lst]).length - 1 = init.length := by simp
    rw [hlen, List.drop_left]
    simp
  have hL : L = a ++ (mid ++ b) := by rw [← hab, List.append_assoc]
  obtain ⟨a2, ha2⟩ := dropWhile_append_infix pyIsSpace mid b hm hh a
  rw [hL]
  unfold pyStrip
  rw [ha2]
  have hrev : mid.reverse ≠ [] := by simpa using hm
  have hrevhead : ∀ c ∈ mid.reverse.take 1, pyIsSpace c = false := by
    rw [hconcat, List.reverse_append]
    intro c hc
    simp only [List.reverse_cons, List.reverse_nil, List.nil_append,
      List.cons_append, List.take_succ_cons, List.take_zero,
      List.mem_singleton] at hc
    rw [hc]
    exact hlast
  rw [List.reverse_append, List.reverse_append, List.append_assoc]
  obtain ⟨a3, ha3⟩ := dropWhile_append_infix pyIsSpace mid.reverse a2.reverse hrev
    hrevhead b.reverse
  rw [ha3]
  rw [List.reverse_append, List.reverse_append, List.reverse_reverse,
    List.reverse_reverse]
  exact ⟨a2, a3.reverse, by rw [List.append_assoc]⟩

theorem toLower_of_space (c : Char) (h : pyIsSpace c = true) : c.toLower = c := by
  simp only [pyIsSpace, decide_eq_true_eq] at h
  rcases h with h | h | h | h | h | h <;> subst h <;> decide

theorem infix_append_left {α : Type} (w x y : List α) (h : x <:+: y) :
    x <:+: w ++ y := by
  obtain ⟨u, v, huv⟩ := h
  exact ⟨w ++ u, v, by rw [← huv]; simp [List.append_assoc]⟩

theorem infix_append_right {α : Type} (w x y : List α) (h : x <:+: y) :
    x <:+: y ++ w := by
  obtain ⟨u, v, huv⟩ := h
  exact ⟨u, v ++ w, by rw [← huv]; simp [List.append_assoc]⟩

theorem seg_infix_snippetChars (n : Nat) (T : List Char) (idx : Nat)
    (hn0 : idx + n ≤ T.length)
    (hne : (T.drop idx).take n ≠ [])
    (hh : ∀ c ∈ ((T.drop idx).take n).take 1, pyIsSpace c = false)
    (hl : ∀ c ∈ ((T.drop idx).take n).drop (((T.drop idx).take n).length - 1),
      pyIsSpace c = false)
    (hnl : '\n' ∉ (T.drop idx).take n) :
    (T.drop idx).take n <:+: snippetChars n T idx := by
  have hw : (T.drop idx).take n <:+: snippetWindow n T idx := by
    unfold snippetWindow
    apply infix_window
    · omega
    · exact Nat.le_min.mpr ⟨hn0, by omega⟩
  have hmapseg : ((T.drop idx).take n).map (fun c => if c = '\n' then ' ' else c)
      = (T.drop idx).take n := by
    have : ∀ c ∈ (T.drop idx).take n,
        (fun c => if c = '\n' then ' ' else c) c = id c := by
      intro c hc
      have hcn : c ≠ '\n' := fun hcc => hnl (hcc ▸ hc)
      simp [hcn]
    rw [List.map_congr_left this, List.map_id]
  have hflat : (T.drop idx).take n
      <:+: (snippetWindow n T idx).map (fun c => if c = '\n' then ' ' else c) := by
    obtain ⟨u, v, huv⟩ := hw
    refine ⟨u.map (fun c => if c = '\n' then ' ' else c),
      v.map (fun c => if c = '\n' then ' ' else c), ?_⟩
    rw [← huv, List.map_append, List.map_append, hmapseg]
  have hcore : (T.drop idx).take n <:+: snippetCore n T idx :=
    pyStrip_infix _ _ hne hh hl hflat
  unfold snippetChars
  by_cases h1 : Nat.min T.length (idx + n + 40) < T.length
  · rw [if_pos h1]
    by_cases h2 : 0 < idx - 40
    · rw [if_pos h2]
      exact infix_append_right _ _ _ (infix_append_left _ _ _ hcore)
    · rw [if_neg h2]
      exact infix_append_right _ _ _ hcore
  · rw [if_neg h1]
    by_cases h2 : 0 < idx - 40
    · rw [if_pos h2]
      exact infix_append_left _ _ _ hcore
    · rw [if_neg h2]
      exact hcore

theorem makeSnippet_contains (q t snip : String)
    (hq : makeSnippet q t = some snip)
    (hnl : '\n' ∉ pyLower q.data)
    (hhead : ∀ c ∈ (pyLower q.data).take 1, pyIsSpace c = false)
    (hlast : ∀ c ∈ (pyLower q.data).drop ((pyLower q.data).length - 1),
      pyIsSpace c = false) :
    pyLower q.data <:+: pyLower snip.data := by
  by_cases hqe : q.data = []
  · rw [show pyLower q.data = [] by simp [pyLower, hqe]]
    exact List.nil_infix
  unfold makeSnippet at hq
  match hfind : findSub (pyLower q.data) (pyLower t.data) with
  | none =>
    rw [hfind] at hq
    cases hq
  | some idx =>
    rw [hfind] at hq
    have hsnipdata : snip.data = snippetChars q.data.length t.data idx := by
      have := Option.some.inj hq
      rw [← this]
    obtain ⟨hpre, hlen⟩ := findSub_spec _ _ _ hfind
    have hlentl : (pyLower t.data).length = t.data.length := by simp [pyLower]
    have hlenql : (pyLower q.data).length = q.data.length := by simp [pyLower]
    have hn0 : idx + q.data.length ≤ t.data.length := by
      rw [← hlentl, ← hlenql]
      exact hlen
    -- the matched segment of the original text
    have hseg_low : pyLower ((t.data.drop idx).take q.data.length)
        = pyLower q.data := by
      show ((t.data.drop idx).take q.data.length).map Char.toLower = _
      rw [List.map_take, List.map_drop]
      have : pyLower q.data
          = ((t.data.map Char.toLower).drop idx).take (pyLower q.data).length := by
        have := List.prefix_iff_eq_take.mp hpre
        simpa [pyLower] using this
      rw [this, hlenql]
    have hseglen : ((t.data.drop idx).take q.data.length).length
        = (pyLower q.data).length := by
      have : (pyLower ((t.data.drop idx).take q.data.length)).length
          = (pyLower q.data).length := by rw [hseg_low]
      simpa [pyLower] using this
    have hsegne : (t.data.drop idx).take q.data.length ≠ [] := by
      intro hcon
      rw [hcon] at hseglen
      simp [hlenql] at hseglen
      exact hqe (List.eq_nil_of_length_eq_zero hseglen.symm)
    have hmemlow : ∀ c ∈ (t.data.drop idx).take q.data.length,
        c.toLower ∈ pyLower q.data := by
      intro c hc
      rw [← hseg_low]
      exact List.mem_map_of_mem _ hc
    have hsegh : ∀ c ∈ ((t.data.drop idx).take q.data.length).take 1,
        pyIsSpace c = false := by
      intro c hc
      have hmem : c.toLower ∈ (pyLower q.data).take 1 := by
        rw [← hseg_low]
        show c.toLower ∈ (((t.data.drop idx).take q.data.length).map Char.toLower).take 1
        rw [← List.map_take]
        exact List.mem_map_of_mem _ hc
      by_cases hsp : pyIsSpace c = true
      · have hlow := toLower_of_space c hsp
        have := hhead _ hmem
        rw [hlow] at this
        rw [this] at hsp
        cases hsp
      · simpa using hsp
    have hsegl : ∀ c ∈ ((t.data.drop idx).take q.data.length).drop
        (((t.data.drop idx).take q.data.length).length - 1), pyIsSpace c = false := by
      intro c hc
      have hmem : c.toLower ∈ (pyLower q.data).drop ((pyLower q.data).length - 1) := by
        rw [← hseg_low]
        show c.toLower ∈ (((t.data.drop idx).take q.data.length).map Char.toLower).drop _
        rw [← List.map_drop]
        apply List.mem_map_of_mem
        have hps : (pyLower ((t.data.drop idx).take q.data.length)).length
            = ((t.data.drop idx).take q.data.length).length := by simp [pyLower]
        rw [hps]
        exact hc
      by_cases hsp : pyIsSpace c = true
      · have hlow := toLower_of_space c hsp
        have := hlast _ hmem
        rw [hlow] at this
        rw [this] at hsp
        cases hsp
      · simpa using hsp
    have hsegnl : '\n' ∉ (t.data.drop idx).take q.data.length := by
      intro hcon
      apply hnl
      have := hmemlow _ hcon
      simpa using this
    have hmain := seg_infix_snippetChars q.data.length t.data idx hn0 hsegne
      hsegh hsegl hsegnl
    rw [hsnipdata]
    have := hmain.map Char.toLower
    rw [show ((t.data.drop idx).take q.data.length).map Char.toLower
        = pyLower q.data from hseg_low] at this
    exact this


theorem scanLines_length (q : String) (maxR : Nat) (sid : String)
    (lines : List (Option Json)) :
    ∀ acc : List SearchResult, acc.length ≤ maxR →
      (scanLines q maxR sid lines acc).length ≤ maxR := by
  induction lines with
  | nil =>
    intro acc h
    simpa [scanLines] using h
  | cons l rest ih =>
    intro acc h
    unfold scanLines
    by_cases hfull : maxR ≤ acc.length
    · rw [if_pos hfull]
      exact h
    · rw [if_neg hfull]
      match l with
      | none => exact ih acc h
      | some data =>
        match hms : makeSnippet q (lineText data) with
        | none =>
          simp only [hms]
          exact ih acc h
        | some snip =>
          simp only [hms]
          apply ih
          simp only [List.length_append, List.length_singleton]
          omega

theorem scanLines_mem (q : String) (maxR : Nat) (sid : String)
    (lines : List (Option Json)) :
    ∀ (acc : List SearchResult) (r : SearchResult),
      r ∈ scanLines q maxR sid lines acc →
      r ∈ acc ∨ ∃ t2, makeSnippet q t2 = some r.snippet := by
  induction lines with
  | nil =>
    intro acc r h
    simp only [scanLines] at h
    exact Or.inl h
  | cons l rest ih =>
    intro acc r h
    unfold scanLines at h
    by_cases hfull : maxR ≤ acc.length
    · rw [if_pos hfull] at h
      exact Or.inl h
    · rw [if_neg hfull] at h
      match l with
      | none => exact ih acc r h
      | some data =>
        match hms : makeSnippet q (lineText data) with
        | none =>
          simp only [hms] at h
          exact ih acc r h
        | some snip =>
          simp only [hms] at h
          rcases ih _ r h with hacc | hex
          · rcases List.mem_append.mp hacc with hacc2 | hsing
            · exact Or.inl hacc2
            · right
              refine ⟨lineText data, ?_⟩
              rw [List.mem_singleton.mp hsing]
              exact hms
          · exact Or.inr hex

theorem searchGo_length (q : String) (maxR : Nat) (sessions : List SearchSession) :
    ∀ acc : List SearchResult, acc.length ≤ maxR →
      (searchGo q maxR sessions acc).length ≤ maxR := by
  induction sessions with
  | nil =>
    intro acc h
    simpa [searchGo] using h
  | cons s rest ih =>
    intro acc h
    unfold searchGo
    by_cases hfull : maxR ≤ acc.length
    · rw [if_pos hfull]
      exact h
    · rw [if_neg hfull]
      match hj : s.jsonl with
      | none =>
        simp only [hj]
        exact ih acc h
      | some lines =>
        simp only [hj]
        by_cases hsz : s.session.jsonl_size < 100
        · rw [if_pos hsz]
          exact ih acc h
        · rw [if_neg hsz]
          exact ih _ (scanLines_length q maxR s.session.session_id lines acc h)

theorem searchGo_mem (q : String) (maxR : Nat) (sessions : List SearchSession) :
    ∀ (acc : List SearchResult) (r : SearchResult),
      r ∈ searchGo q maxR sessions acc →
      r ∈ acc ∨ ∃ t2, makeSnippet q t2 = some r.snippet := by
  induction sessions with
  | nil =>
    intro acc r h
    simp only [searchGo] at h
    exact Or.inl h
  | cons s rest ih =>
    intro acc r h
    unfold searchGo at h
    by_cases hfull : maxR ≤ acc.length
    · rw [if_pos hfull] at h
      exact Or.inl h
    · rw [if_neg hfull] at h
      match hj : s.jsonl with
      | none =>
        simp only [hj] at h
        exact ih acc r h
      | some lines =>
        simp only [hj] at h
        by_cases hsz : s.session.jsonl_size < 100
        · rw [if_pos hsz] at h
          exact ih acc r h
        · rw [if_neg hsz] at h
          rcases ih _ r h with hacc | hex
          · exact scanLines_mem q maxR s.session.session_id lines acc r hacc
          · exact Or.inr hex

/-- C3 (amended): deep search returns at most `max_results` results, and —
for a query with no newline character and no leading or trailing whitespace
(compared case-insensitively) — every returned snippet contains the query as
a case-insensitive substring; the snippet is the 40-characters-each-side
window around the first match of the line, newline-flattened, stripped and
ellipsis-marked.  (A query containing a newline or edge whitespace can lose
its match to the snippet's newline flattening or stripping.) -/
theorem C3_deep_search (query : String) (maxResults : Nat)
    (sessions : List SearchSession)
    (hnl : '\n' ∉ pyLower query.data)
    (hhead : ∀ c ∈ (pyLower query.data).take 1, pyIsSpace c = false)
    (hlast : ∀ c ∈ (pyLower query.data).drop ((pyLower query.data).length - 1),
      pyIsSpace c = false) :
    (searchConversations query maxResults sessions).length ≤ maxResults
      ∧ ∀ r ∈ searchConversations query maxResults sessions,
          pyLower query.data <:+: pyLower r.snippet.data := by
  constructor
  · exact searchGo_length query maxResults sessions [] (by simp)
  · intro r hr
    rcases searchGo_mem query maxResults sessions [] r hr with hacc | ⟨t2, ht2⟩
    · cases hacc
    · exact makeSnippet_contains query t2 r.snippet ht2 hnl hhead hlast

/-- The transcript line and session used by the C3 counterexample. -/
def c3UserLine : Json :=
  .obj [("type", .str "user"), ("message", .obj [("content", .str "xa\nby")])]

def c3Session : SearchSession :=
  ⟨{ session_id := "s1", project := "p", project_path := "pp",
     jsonl_size := 200 }, some [some c3UserLine]⟩

/-- C3 counterexample: for the query containing a newline, `"a\nb"`, the
match in the line text `"xa\nby"` is destroyed by the snippet's
newline-to-space flattening: the sole returned snippet is `"xa by"`, which
does not contain the query case-insensitively — refuting the claim for
every query string. -/
theorem C3_snippet_counterexample :
    (searchConversations "a\nb" 50 [c3Session]).map (fun r => r.snippet)
        = ["xa by"]
      ∧ ¬ pyLower ("a\nb" : String).data <:+: pyLower ("xa by" : String).data := by
  constructor
  · decide
  · decide

/-- The session used by the C3 witness. -/
def c3WitSession : SearchSession :=
  ⟨{ session_id := "s2", project := "p", project_path := "pp",
     jsonl_size := 200 },
   some [some (.obj [("type", .str "user"),
     ("message", .obj [("content", .str "say hello there")])])]⟩

/-- C3 witness: the deep-search guarantees instantiated for the query
`hello` over one session whose line contains it. -/
theorem C3_deep_search_witness :
    ('\n' ∉ pyLower ("hello" : String).data
        ∧ (∀ c ∈ (pyLower ("hello" : String).data).take 1, pyIsSpace c = false)
        ∧ (∀ c ∈ (pyLower ("hello" : String).data).drop
            ((pyLower ("hello" : String).data).length - 1), pyIsSpace c = false))
      ∧ ((searchConversations "hello" 50 [c3WitSession]).length ≤ 50
        ∧ ∀ r ∈ searchConversations "hello" 50 [c3WitSession],
            pyLower ("hello" : String).data <:+: pyLower r.snippet.data) :=
  ⟨⟨by decide, by decide, by decide⟩,
    C3_deep_search "hello" 50 [c3WitSession] (by decide) (by decide) (by decide)⟩
